import Mathlib

/-!
# ppmAudio: container header parsing and nibble-swapped ADPCM wrapping

A shallow embedding of `main.go`.

Conventions of the embedding:

* a Go `byte` is a `Nat` below 256, a `[]byte` is a `List Nat`;
* Go's `int` is taken to be 64 bits wide.  Every `int` value computed by the
  decode path is a sum of one 32-bit field, one 16-bit field plus one, the
  constants `0x06A0` and `32`, an alignment padding below 4 and at most three
  further 32-bit fields, hence below `2 ^ 35`: it never wraps, and `int`
  arithmetic is modelled on `Nat` (see `running_offset_fits_int`);
* `uint32(x)` is `x % 2 ^ 32`, written out where the source converts;
* an `*os.File` is the list of its bytes together with the current position;
  the results `(n, err)` of `ReadAt`, `Seek` and `Read` are dropped by the
  source at every call, so only the effect on the buffer and on the position is
  kept;
* `ReadAt` repeats its positioned read until the buffer is full or the file
  ends, whereas `Read` is one read call, which the Go runtime cuts to `maxRW`
  (`1 << 30`) bytes: a buffer longer than that is filled only up to `maxRW`.
-/

set_option linter.dupNamespace false

namespace PpmAudio

/-! ## Data model -/

/-- The Go struct `Offset`: a `uint32` byte position and an `int` length. -/
structure Offset where
  Offset : Nat
  Length : Nat
deriving DecidableEq, Repr

/-- The Go struct `SoundMeta`: one span per track, in the fixed order. -/
structure SoundMeta where
  BGM : Offset
  SoundEffect1 : Offset
  SoundEffect2 : Offset
  SoundEffect3 : Offset
deriving DecidableEq, Repr

/-- The part of the Go struct `SoundData` that the header parse fills in. -/
structure SoundData where
  SoundMeta : SoundMeta
  Size : Int
deriving DecidableEq, Repr

/-- The signature `[]byte("PARA")`. -/
def ppmMagic : List Nat := [0x50, 0x41, 0x52, 0x41]

/-- The conversion `uint32(x)` of a non-negative `int`. -/
def toUint32 (x : Nat) : Nat := x % 2 ^ 32

/-! ## The nibble swap -/

/-- The expression `(b&0xF)<<4 | (b >> 4)` on a `byte`; the left shift is
truncated to 8 bits as Go does for a `byte` operand. -/
def swap (b : Nat) : Nat := (((b &&& 0xF) <<< 4) % 256) ||| (b >>> 4)

/-- The loop `for i := 0; i < n; i++ { buffer[i] = swap(buffer[i]) }`, with
`k` iterations left and the index at `i`. -/
def swapLoop : Nat → Nat → List Nat → List Nat
  | 0, _, buffer => buffer
  | k + 1, i, buffer => swapLoop k (i + 1) (buffer.set i (swap (buffer.getD i 0)))

/-! ## Sound header offset -/

/-- Line 180: `0x06A0 + frameDataSize + frameCount`. -/
def preAlignOffset (frameDataSize frameCount : Nat) : Nat :=
  0x06A0 + frameDataSize + frameCount

/-- Lines 181-183: `if x % 4 != 0 { x += 4 - x % 4 }`. -/
def alignOffset (x : Nat) : Nat :=
  if x % 4 ≠ 0 then x + (4 - x % 4) else x

/-! ## Files -/

/-- An open `*os.File`: its bytes and the current read position. -/
structure OsFile where
  data : List Nat
  pos : Nat
deriving DecidableEq, Repr

/-- The allocation `make([]byte, n)`: `n` zero bytes. -/
def makeBytes (n : Nat) : List Nat := List.replicate n 0

/-- The bytes a read of `len` bytes at offset `off` obtains: as many as the
file still holds from `off` on, at most `len`. -/
def OsFile.available (f : OsFile) (off len : Nat) : List Nat :=
  (f.data.drop off).take len

/-- Buffer contents after `f.ReadAt(buf, off)`: the bytes read overwrite the
front of `buf`, the rest of `buf` is left as it was. -/
def OsFile.ReadAt (f : OsFile) (buf : List Nat) (off : Nat) : List Nat :=
  f.available off buf.length ++ buf.drop (f.available off buf.length).length

/-- The call `f.Seek(off, 0)`: the position becomes `off`. -/
def OsFile.Seek (f : OsFile) (off : Nat) : OsFile :=
  { f with pos := off }

/-- The constant `maxRW = 1 << 30` of the Go runtime (`internal/poll`): the
most bytes one `Read` call asks the system for. -/
def maxRW : Nat := 2 ^ 30

/-- The bytes one `f.Read(buf)` call obtains: the buffer is first cut to
`maxRW` bytes, then a single read at the current position returns what the
file still holds, at most that many bytes. -/
def OsFile.readBytes (f : OsFile) (buf : List Nat) : List Nat :=
  f.available f.pos (min buf.length maxRW)

/-- The number `n` of bytes that `f.Read(buf)` reports. -/
def OsFile.readCount (f : OsFile) (buf : List Nat) : Nat :=
  (f.readBytes buf).length

/-- The call `f.Read(buf)`: one read at the current position of at most
`maxRW` bytes; the bytes obtained overwrite the front of `buf`, the rest of
`buf` is left as it was, and the position advances by the number of bytes
read. -/
def OsFile.Read (f : OsFile) (buf : List Nat) : OsFile × List Nat :=
  ({ f with pos := f.pos + f.readCount buf },
    f.readBytes buf ++ buf.drop (f.readCount buf))

/-! ## Little-endian field readers -/

/-- The function `binaryReadLE_uint16`: `binary.Read` of a `uint16` in little
endian; with fewer than 2 bytes the read fails and `result` stays 0. -/
def binaryReadLE_uint16 (byteArray : List Nat) : Nat :=
  match byteArray with
  | b0 :: b1 :: _ => b0 + 256 * b1
  | _ => 0

/-- The function `binaryReadLE_uint32`: `binary.Read` of a `uint32` in little
endian; with fewer than 4 bytes the read fails and `result` stays 0. -/
def binaryReadLE_uint32 (byteArray : List Nat) : Nat :=
  match byteArray with
  | b0 :: b1 :: b2 :: b3 :: _ => b0 + 256 * b1 + 65536 * b2 + 16777216 * b3
  | _ => 0

/-- The loop of `binaryReadLE`: while `i < j`, exchange the bytes at `i` and
`j`, then move both indices inwards. -/
def binaryReadLE.loop : Nat → Nat → Nat → List Nat → List Nat
  | 0, _, _, byteArray => byteArray
  | fuel + 1, i, j, byteArray =>
    if i < j then
      binaryReadLE.loop fuel (i + 1) (j - 1)
        ((byteArray.set i (byteArray.getD j 0)).set j (byteArray.getD i 0))
    else byteArray

/-- The function `binaryReadLE`: reverses the byte order in place.  The loop
runs at most `len / 2` times, so `len` rounds of fuel are enough. -/
def binaryReadLE (byteArray : List Nat) : List Nat :=
  binaryReadLE.loop byteArray.length 0 (byteArray.length - 1) byteArray

/-! ## Track spans -/

/-- Lines 202-217 of `main`: from the aligned `soundHeaderOffset` and the four
track sizes, the running `int` offset is advanced by 32 and then by each track
length; each span stores `uint32` of the running offset and the length. -/
def soundMeta (soundHeaderOffset bgmSize sec1Size sec2Size sec3Size : Nat) : SoundMeta :=
  let off0 := soundHeaderOffset + 32
  let off1 := off0 + bgmSize
  let off2 := off1 + sec1Size
  let off3 := off2 + sec2Size
  { BGM := { Offset := toUint32 off0, Length := bgmSize }
    SoundEffect1 := { Offset := toUint32 off1, Length := sec1Size }
    SoundEffect2 := { Offset := toUint32 off2, Length := sec2Size }
    SoundEffect3 := { Offset := toUint32 off3, Length := sec3Size } }

/-- The header computation of `main` as a function of the decoded fields: the
animation data size, the stored frame-count field (the frame count is the field
plus one, line 172) and the four track sizes. -/
def headerSpans (animationDataSize frameField : Nat) (bgmSize sec1Size sec2Size sec3Size : Nat) :
    SoundMeta :=
  soundMeta (alignOffset (preAlignOffset animationDataSize (frameField + 1)))
    bgmSize sec1Size sec2Size sec3Size

/-! ## Hexadecimal round trip of the audio size -/

/-- The table `"0123456789abcdef"` of `encoding/hex`. -/
def hextable : List Char := "0123456789abcdef".toList

/-- The function `hex.EncodeToString`: two characters per byte,
`hextable[b>>4]` then `hextable[b&0x0f]`. -/
def hexEncodeToString : List Nat → List Char
  | [] => []
  | b :: bs => hextable.getD (b >>> 4) '0' :: hextable.getD (b &&& 0x0f) '0' :: hexEncodeToString bs

/-- The errors of `strconv`: `ErrSyntax` and `ErrRange`. -/
inductive NumError where
  | ErrSyntax
  | ErrRange
deriving DecidableEq, Repr

/-- The helper `lower` of `strconv`: `c | ('x' - 'X')` on a byte. -/
def lower (c : Nat) : Nat := c ||| 0x20

/-- The digit switch in the loop of `strconv.ParseUint`: the value of the
character `c`, or none when `c` is no digit or letter. -/
def digitValue (c : Nat) : Option Nat :=
  if 0x30 ≤ c ∧ c ≤ 0x39 then some (c - 0x30)
  else if 0x61 ≤ lower c ∧ lower c ≤ 0x7a then some (lower c - 0x61 + 10)
  else none

/-- The digit loop of `strconv.ParseUint` with `bitSize = 64`: `n` is the value
so far; the result is the value together with the error, as Go returns them. -/
def parseDigits (base : Nat) (base0 : Bool) : Nat → List Char → Nat × Option NumError
  | n, [] => (n, none)
  | n, ch :: rest =>
    if ch.toNat = 0x5f ∧ base0 = true then parseDigits base base0 n rest
    else
      match digitValue ch.toNat with
      | none => (0, some NumError.ErrSyntax)
      | some d =>
        if d ≥ base then (0, some NumError.ErrSyntax)
        else if n ≥ (2 ^ 64 - 1) / base + 1 then (2 ^ 64 - 1, some NumError.ErrRange)
        else if n * base + d > 2 ^ 64 - 1 then (2 ^ 64 - 1, some NumError.ErrRange)
        else parseDigits base base0 (n * base + d) rest

/-- The check `underscoreOK` of `strconv`, on the characters after the
optional sign: `saw` is the class of the previous character (`0` start, `1`
digit, `2` underscore, `3` other). -/
def underscoreScan (isHex : Bool) : Nat → List Char → Bool
  | saw, [] => saw ≠ 2
  | saw, ch :: rest =>
    let c := ch.toNat
    if (0x30 ≤ c ∧ c ≤ 0x39) ∨ (isHex = true ∧ 0x61 ≤ lower c ∧ lower c ≤ 0x66) then
      underscoreScan isHex 1 rest
    else if c = 0x5f then
      if saw ≠ 1 then false else underscoreScan isHex 2 rest
    else if saw = 2 then false
    else underscoreScan isHex 3 rest

/-- The function `underscoreOK` of `strconv`. -/
def underscoreOK (s : List Char) : Bool :=
  let s := match s with
    | ch :: rest => if ch = '-' ∨ ch = '+' then rest else s
    | [] => s
  match s with
  | c0 :: c1 :: rest =>
    if c0 = '0' ∧ (lower c1.toNat = 0x62 ∨ lower c1.toNat = 0x6f ∨ lower c1.toNat = 0x78) then
      underscoreScan (decide (lower c1.toNat = 0x78)) 1 rest
    else underscoreScan false 0 s
  | _ => underscoreScan false 0 s

/-- The function `strconv.ParseUint(s, 0, 64)`: base chosen from the prefix,
then the digit loop, then the underscore check. -/
def ParseUint0 (s : List Char) : Nat × Option NumError :=
  match s with
  | [] => (0, some NumError.ErrSyntax)
  | c0 :: tail =>
    let (base, digits) : Nat × List Char :=
      if c0 = '0' then
        match tail with
        | c1 :: rest =>
          if rest ≠ [] ∧ lower c1.toNat = 0x62 then (2, rest)
          else if rest ≠ [] ∧ lower c1.toNat = 0x6f then (8, rest)
          else if rest ≠ [] ∧ lower c1.toNat = 0x78 then (16, rest)
          else (8, tail)
        | [] => (8, tail)
      else (10, s)
    match parseDigits base true 0 digits with
    | (n, some e) => (n, some e)
    | (n, none) =>
      if digits.any (fun ch => ch = '_') ∧ underscoreOK s = false then
        (0, some NumError.ErrSyntax)
      else (n, none)

/-- The function `strconv.ParseInt(s, 0, 64)`: the value and the error. -/
def ParseInt0 (s : List Char) : Int × Option NumError :=
  match s with
  | [] => (0, some NumError.ErrSyntax)
  | c0 :: rest =>
    let neg := decide (c0 = '-')
    let body := if c0 = '+' ∨ c0 = '-' then rest else s
    match ParseUint0 body with
    | (_, some NumError.ErrSyntax) => (0, some NumError.ErrSyntax)
    | (un, _) =>
      if neg = false ∧ un ≥ 2 ^ 63 then ((2 : Int) ^ 63 - 1, some NumError.ErrRange)
      else if neg = true ∧ un > 2 ^ 63 then (-(2 : Int) ^ 63, some NumError.ErrRange)
      else if neg = true then (-(un : Int), none) else ((un : Int), none)

/-- The function `hex2int`: `"0x" + hex.EncodeToString(hexBytes)` parsed by
`strconv.ParseInt(_, 0, 64)`, the error dropped. -/
def hex2int (hexBytes : List Nat) : Int :=
  (ParseInt0 ('0' :: 'x' :: hexEncodeToString hexBytes)).1

/-! ## The decode path of `main` up to the spans -/

/-- The file accesses of the decode path, in program order. -/
inductive FileAccess where
  | ReadAt (len off : Nat)
  | Seek (off : Nat)
  | Read (len : Nat)
deriving DecidableEq, Repr

/-- How the header part of the decode path ends: at the magic check
(`"Error: PPM magic incorrect."`, `os.Exit(0)`) or with the filled
`SoundData`. -/
inductive HeaderResult where
  | magicIncorrect
  | parsed (soundData : SoundData)
deriving DecidableEq, Repr

/-- A run of the header part: the file accesses made and the result. -/
structure HeaderRun where
  accesses : List FileAccess
  result : HeaderResult
deriving DecidableEq, Repr

/-- Lines 153-217 of `main` on the opened file. -/
def decodeHeader (ppmFile : OsFile) : HeaderRun :=
  let magic := ppmFile.ReadAt (makeBytes 4) 0x0
  if ppmMagic ≠ magic then
    { accesses := [FileAccess.ReadAt 4 0x0], result := HeaderResult.magicIncorrect }
  else
    let animationSize := ppmFile.ReadAt (makeBytes 4) 0x4
    let frameDataSize := binaryReadLE_uint32 animationSize
    let frameCountBytes := ppmFile.ReadAt (makeBytes 2) 0xC
    let frameCount := binaryReadLE_uint16 frameCountBytes + 1
    let audioSize := ppmFile.ReadAt (makeBytes 4) 0x8
    let size := hex2int (binaryReadLE audioSize)
    let soundHeaderOffset := alignOffset (preAlignOffset frameDataSize frameCount)
    let f0 := ppmFile.Seek soundHeaderOffset
    let (f1, bgmSizeBytes) := f0.Read (makeBytes 4)
    let (f2, sec1SizeBytes) := f1.Read (makeBytes 4)
    let (f3, sec2SizeBytes) := f2.Read (makeBytes 4)
    let (_, sec3SizeBytes) := f3.Read (makeBytes 4)
    let bgmSize := binaryReadLE_uint32 bgmSizeBytes
    let sec1Size := binaryReadLE_uint32 sec1SizeBytes
    let sec2Size := binaryReadLE_uint32 sec2SizeBytes
    let sec3Size := binaryReadLE_uint32 sec3SizeBytes
    { accesses :=
        [FileAccess.ReadAt 4 0x0, FileAccess.ReadAt 4 0x4, FileAccess.ReadAt 2 0xC,
          FileAccess.ReadAt 4 0x8, FileAccess.Seek soundHeaderOffset, FileAccess.Read 4,
          FileAccess.Read 4, FileAccess.Read 4, FileAccess.Read 4]
      result := HeaderResult.parsed
        { SoundMeta := soundMeta soundHeaderOffset bgmSize sec1Size sec2Size sec3Size
          Size := size } }

/-! ## Track extraction and the codec wrappers -/

/-- The buffer that `decodeAudio` hands to the ADPCM decoder: seek to
`trackOffset`, read into `make([]byte, trackLength)`, swap every byte. -/
def decodeBuffer (ppmFile : OsFile) (trackOffset trackLength : Nat) : List Nat :=
  let f := ppmFile.Seek trackOffset
  let buffer := (f.Read (makeBytes trackLength)).2
  swapLoop trackLength 0 buffer

/-- The function `decodeAudio`; `decode` is the single-channel decoder
`adpcm.NewDecoder(1).Decode` of the library, from the bytes to the samples it
appends to the empty `audio`. -/
def decodeAudio (decode : List Nat → List Int) (ppmFile : OsFile)
    (trackOffset trackLength : Nat) : List Int :=
  decode (decodeBuffer ppmFile trackOffset trackLength)

/-- The function `encodeAudio`; `encode` is `adpcm.Encode` of the library, from
the samples to the bytes it appends to the empty `encodedAudio`. -/
def encodeAudio (encode : List Int → List Nat) (audio : List Int) : List Nat :=
  let encodedAudio := encode audio
  swapLoop encodedAudio.length 0 encodedAudio

/-! ## The ADPCM decoder -/

/-- The running state of the decoder: the predicted sample and the step-size
index. -/
structure AdpcmState where
  predicted : Int
  stepIndex : Nat
deriving DecidableEq, Repr

/-- Clamp to the 16-bit signed sample range. -/
def clamp16 (x : Int) : Int :=
  if x > 32767 then 32767 else if x < -32768 then -32768 else x

/-- Modelled from the spec: the per-code loop of the ADPCM decoder of the
`adpcm-go` library, which `main.go` imports and which is not part of the
sources.  For each 4-bit code the state is updated from the code (the
table-driven step and delta computation is the parameter `update`), the
predicted sample is clamped to the 16-bit range and emitted as one sample. -/
def adpcmDecodeCodes (update : AdpcmState → Nat → AdpcmState) :
    AdpcmState → List Nat → List Int
  | _, [] => []
  | st, code :: codes =>
    let st1 := update st code
    let sample := clamp16 st1.predicted
    sample :: adpcmDecodeCodes update { predicted := sample, stepIndex := st1.stepIndex } codes

/-- Modelled from the spec: the two 4-bit codes of one byte, low nibble then
high nibble. -/
def byteCodes (b : Nat) : List Nat := [b % 16, b / 16]

/-- Modelled from the spec: the single-channel ADPCM decoder of `adpcm-go`,
one sample per 4-bit code, two codes per input byte, the state running over
the whole input from the initial state `init` of a fresh decoder. -/
def adpcmDecode (update : AdpcmState → Nat → AdpcmState) (init : AdpcmState)
    (input : List Nat) : List Int :=
  adpcmDecodeCodes update init (input.flatMap byteCodes)

/-! ## Command-line validation -/

/-- Where the parameter checks of `main` (lines 61-98) leave the program: at
one of the five `os.Exit(0)` calls, or past them. -/
inductive ParameterCheck where
  | exitMissingFile
  | exitTrackWhenEncoding
  | exitEncodeAndDecode
  | exitNoTrack
  | exitInvalidTrack
  | passed
deriving DecidableEq, Repr

/-- Lines 61-98 of `main`, the checks in program order. -/
def checkParameters (encodeWav decodePPM track outputFile : String) : ParameterCheck :=
  if encodeWav = "" ∧ (decodePPM = "" ∨ outputFile = "") then ParameterCheck.exitMissingFile
  else if encodeWav ≠ "" ∧ track ≠ "" then ParameterCheck.exitTrackWhenEncoding
  else if encodeWav ≠ "" ∧ decodePPM ≠ "" then ParameterCheck.exitEncodeAndDecode
  else if decodePPM ≠ "" ∧ track = "" then ParameterCheck.exitNoTrack
  else if decodePPM ≠ "" ∧ (track ≠ "bgm" ∧ track ≠ "se1" ∧ track ≠ "se2" ∧ track ≠ "se3") then
    ParameterCheck.exitInvalidTrack
  else ParameterCheck.passed

/-- The calls of `main` that open or create a file. -/
inductive FileCall where
  | Open (name : String)
  | Create (name : String)
deriving DecidableEq, Repr

/-- The first file call `main` makes: none when a parameter check exits;
otherwise `os.Open(encodeWav)` in encode mode (line 102), else
`os.Open(decodePPM)` in decode mode (line 146). -/
def firstFileCall (encodeWav decodePPM track outputFile : String) : Option FileCall :=
  match checkParameters encodeWav decodePPM track outputFile with
  | ParameterCheck.passed =>
    if encodeWav ≠ "" then some (FileCall.Open encodeWav)
    else if decodePPM ≠ "" then some (FileCall.Open decodePPM)
    else none
  | _ => none

/-! ## The reference header computation -/

/-- The least multiple of 4 that is at least `x`: "rounds this value up to the
next multiple of 4 (if already a multiple of 4, leave unchanged)". -/
def specRoundUp4 (x : Nat) : Nat := 4 * ((x + 3) / 4)

/-- The reference definition of the four spans: the pre-alignment offset is
`0x06A0 + animationDataSize + (frameField + 1)`, `base` is that value rounded
up to a multiple of 4, track 0 starts at `base + 32`, every later track starts
where the previous one ends, and the lengths are the four length fields. -/
def specSpans (animationDataSize frameField : Nat) (len0 len1 len2 len3 : Nat) : SoundMeta :=
  let base := specRoundUp4 (0x06A0 + animationDataSize + (frameField + 1))
  { BGM := { Offset := base + 32, Length := len0 }
    SoundEffect1 := { Offset := base + 32 + len0, Length := len1 }
    SoundEffect2 := { Offset := base + 32 + len0 + len1, Length := len2 }
    SoundEffect3 := { Offset := base + 32 + len0 + len1 + len2, Length := len3 } }

/-- The spans of `m` with every offset reduced to 32 bits. -/
def SoundMeta.truncated (m : SoundMeta) : SoundMeta :=
  { BGM := { Offset := m.BGM.Offset % 2 ^ 32, Length := m.BGM.Length }
    SoundEffect1 := { Offset := m.SoundEffect1.Offset % 2 ^ 32, Length := m.SoundEffect1.Length }
    SoundEffect2 := { Offset := m.SoundEffect2.Offset % 2 ^ 32, Length := m.SoundEffect2.Length }
    SoundEffect3 := { Offset := m.SoundEffect3.Offset % 2 ^ 32, Length := m.SoundEffect3.Length } }

/-! ## Auxiliary facts -/

theorem alignOffset_eq_specRoundUp4 (x : Nat) : alignOffset x = specRoundUp4 x := by
  unfold alignOffset specRoundUp4
  split <;> omega

/-- Every `int` the header computation forms stays far below `2 ^ 63`. -/
theorem running_offset_fits_int (a f l0 l1 l2 l3 : Nat) (ha : a < 2 ^ 32) (hf : f < 2 ^ 16)
    (h0 : l0 < 2 ^ 32) (h1 : l1 < 2 ^ 32) (h2 : l2 < 2 ^ 32) (h3 : l3 < 2 ^ 32) :
    alignOffset (preAlignOffset a (f + 1)) + 32 + l0 + l1 + l2 + l3 < 2 ^ 35 := by
  unfold alignOffset preAlignOffset
  split <;> omega

theorem swap_lt (b : Nat) (hb : b < 256) : swap b < 256 := by
  interval_cases b <;> decide

theorem swap_involutive_on_bytes (b : Nat) (hb : b < 256) : swap (swap b) = b := by
  interval_cases b <;> decide

theorem swap_zero : swap 0 = 0 := by decide

theorem swapLoop_append (suf pre : List Nat) :
    swapLoop suf.length pre.length (pre ++ suf) = pre ++ suf.map swap := by
  induction suf generalizing pre with
  | nil => simp [swapLoop]
  | cons x xs ih =>
    have h := ih (pre ++ [swap x])
    simp only [List.length_append, List.length_singleton, List.append_assoc,
      List.singleton_append] at h
    have hx : (pre ++ x :: xs).getD pre.length 0 = x := by
      rw [List.getD_append_right _ _ _ _ (Nat.le_refl _)]
      simp
    have hs : (pre ++ x :: xs).set pre.length (swap x) = pre ++ swap x :: xs := by
      rw [List.set_append_right _ _ (Nat.le_refl _)]
      simp
    rw [List.length_cons, swapLoop, hx, hs, h, List.map_cons]

theorem swapLoop_eq_map (buffer : List Nat) :
    swapLoop buffer.length 0 buffer = buffer.map swap := by
  simpa using swapLoop_append buffer []

/-! ## Nibble swap -/

/-- C1: the nibble swap `(b & 0x0F) << 4 | (b >> 4)` in 8-bit arithmetic maps
bytes to bytes and is self-inverse: `swap (swap b) = b` for every byte `b`. -/
theorem swap_swap (b : Nat) (hb : b < 256) : swap b < 256 ∧ swap (swap b) = b :=
  ⟨swap_lt b hb, swap_involutive_on_bytes b hb⟩

theorem swap_swap_witness : (0xA7 < 256) ∧ (swap 0xA7 < 256 ∧ swap (swap 0xA7) = 0xA7) :=
  ⟨by decide, swap_swap 0xA7 (by decide)⟩

/-! ## Alignment -/

/-- C2: the alignment step rounds up to the next multiple of 4: for every
non-negative `x` the aligned value `a` has `a % 4 = 0`, `a ≥ x` and
`a - x ∈ {0, 1, 2, 3}`, and a multiple of 4 is left unchanged. -/
theorem alignOffset_rounds_up (x k : Nat) :
    alignOffset x % 4 = 0 ∧ x ≤ alignOffset x ∧ alignOffset x - x ∈ [0, 1, 2, 3] ∧
      alignOffset (4 * k) = 4 * k := by
  have hlt : alignOffset x - x < 4 := by
    unfold alignOffset
    split <;> omega
  refine ⟨?_, ?_, ?_, ?_⟩
  · unfold alignOffset
    split <;> omega
  · unfold alignOffset
    split <;> omega
  · generalize alignOffset x - x = d at hlt
    interval_cases d <;> simp
  · unfold alignOffset
    split <;> omega

/-! ## Track spans -/

theorem toUint32_add (x l : Nat) : toUint32 (x + l) = (toUint32 x + l) % 2 ^ 32 := by
  unfold toUint32
  omega

/-- C3, as stated, fails where the running offset passes `2 ^ 32`: with
animation size 0, frame field 0 and track lengths `[0xFFFFFFFF, 0, 0, 0]` the
stored offsets are 1732 for BGM and 1731 for SoundEffect1, while the BGM offset
plus the BGM length is 4294969027. -/
theorem spans_not_contiguous_past_uint32 :
    (headerSpans 0 0 0xFFFFFFFF 0 0 0).BGM.Offset = 1732 ∧
      (headerSpans 0 0 0xFFFFFFFF 0 0 0).BGM.Length = 4294967295 ∧
      (headerSpans 0 0 0xFFFFFFFF 0 0 0).SoundEffect1.Offset = 1731 ∧
      (headerSpans 0 0 0xFFFFFFFF 0 0 0).SoundEffect1.Offset ≠
        (headerSpans 0 0 0xFFFFFFFF 0 0 0).BGM.Offset +
          (headerSpans 0 0 0xFFFFFFFF 0 0 0).BGM.Length := by
  decide

/-- C3, amended: for every header the four spans are contiguous and ordered
modulo `2 ^ 32`: `span[i+1].Offset = (span[i].Offset + span[i].Length) % 2 ^ 32`
for `i` in `{0, 1, 2}`; the equality is exact for every `i` whose sum
`span[i].Offset + span[i].Length` is below `2 ^ 32`. -/
theorem spans_contiguous_mod_uint32 (a f l0 l1 l2 l3 : Nat) :
    ((headerSpans a f l0 l1 l2 l3).SoundEffect1.Offset =
        ((headerSpans a f l0 l1 l2 l3).BGM.Offset +
          (headerSpans a f l0 l1 l2 l3).BGM.Length) % 2 ^ 32 ∧
      (headerSpans a f l0 l1 l2 l3).SoundEffect2.Offset =
        ((headerSpans a f l0 l1 l2 l3).SoundEffect1.Offset +
          (headerSpans a f l0 l1 l2 l3).SoundEffect1.Length) % 2 ^ 32 ∧
      (headerSpans a f l0 l1 l2 l3).SoundEffect3.Offset =
        ((headerSpans a f l0 l1 l2 l3).SoundEffect2.Offset +
          (headerSpans a f l0 l1 l2 l3).SoundEffect2.Length) % 2 ^ 32) ∧
    (((headerSpans a f l0 l1 l2 l3).BGM.Offset +
          (headerSpans a f l0 l1 l2 l3).BGM.Length < 2 ^ 32 →
        (headerSpans a f l0 l1 l2 l3).SoundEffect1.Offset =
          (headerSpans a f l0 l1 l2 l3).BGM.Offset +
            (headerSpans a f l0 l1 l2 l3).BGM.Length) ∧
      ((headerSpans a f l0 l1 l2 l3).SoundEffect1.Offset +
          (headerSpans a f l0 l1 l2 l3).SoundEffect1.Length < 2 ^ 32 →
        (headerSpans a f l0 l1 l2 l3).SoundEffect2.Offset =
          (headerSpans a f l0 l1 l2 l3).SoundEffect1.Offset +
            (headerSpans a f l0 l1 l2 l3).SoundEffect1.Length) ∧
      ((headerSpans a f l0 l1 l2 l3).SoundEffect2.Offset +
          (headerSpans a f l0 l1 l2 l3).SoundEffect2.Length < 2 ^ 32 →
        (headerSpans a f l0 l1 l2 l3).SoundEffect3.Offset =
          (headerSpans a f l0 l1 l2 l3).SoundEffect2.Offset +
            (headerSpans a f l0 l1 l2 l3).SoundEffect2.Length)) := by
  have e1 := toUint32_add (alignOffset (preAlignOffset a (f + 1)) + 32) l0
  have e2 := toUint32_add (alignOffset (preAlignOffset a (f + 1)) + 32 + l0) l1
  have e3 := toUint32_add (alignOffset (preAlignOffset a (f + 1)) + 32 + l0 + l1) l2
  simp only [headerSpans, soundMeta]
  refine ⟨⟨e1, e2, e3⟩, ?_, ?_, ?_⟩
  · intro h
    rw [e1, Nat.mod_eq_of_lt h]
  · intro h
    rw [e2, Nat.mod_eq_of_lt h]
  · intro h
    rw [e3, Nat.mod_eq_of_lt h]

theorem spans_contiguous_mod_uint32_witness :
    (headerSpans 0x1000 9 100 50 0 200).SoundEffect1.Offset = 5936 ∧
      (headerSpans 0x1000 9 100 50 0 200).SoundEffect1.Offset =
        (headerSpans 0x1000 9 100 50 0 200).BGM.Offset +
          (headerSpans 0x1000 9 100 50 0 200).BGM.Length :=
  ⟨by decide, (spans_contiguous_mod_uint32 0x1000 9 100 50 0 200).2.1 (by decide)⟩

/-! ## Header computation against its reference -/

/-- C4, as stated, fails where `base + 32` passes `2 ^ 32`: with animation
size `0xFFFFFFFF`, frame field 0 and all track lengths 0 the reference offset
of track 0 is 4294969024, the stored one is 1728. -/
theorem headerSpans_ne_specSpans_past_uint32 :
    (specSpans 0xFFFFFFFF 0 0 0 0 0).BGM.Offset = 4294969024 ∧
      (headerSpans 0xFFFFFFFF 0 0 0 0 0).BGM.Offset = 1728 ∧
      headerSpans 0xFFFFFFFF 0 0 0 0 0 ≠ specSpans 0xFFFFFFFF 0 0 0 0 0 := by
  decide

/-- C4, amended: for every header the pre-alignment offset is
`0x06A0 + animationDataSize + (frame field + 1)`, the four lengths are the four
length fields, and the stored offsets are the reference offsets (`base + 32`,
then previous offset plus previous length, `base` the pre-alignment offset
rounded up to a multiple of 4) reduced modulo `2 ^ 32`; whenever the last
reference offset `base + 32 + len0 + len1 + len2` is below `2 ^ 32` the
computed spans equal the reference spans exactly. -/
theorem headerSpans_eq_specSpans_mod (a f l0 l1 l2 l3 : Nat) :
    preAlignOffset a (f + 1) = 0x06A0 + a + (f + 1) ∧
      headerSpans a f l0 l1 l2 l3 = (specSpans a f l0 l1 l2 l3).truncated ∧
      (specRoundUp4 (0x06A0 + a + (f + 1)) + 32 + l0 + l1 + l2 < 2 ^ 32 →
        headerSpans a f l0 l1 l2 l3 = specSpans a f l0 l1 l2 l3) := by
  refine ⟨rfl, ?_, ?_⟩
  · simp only [headerSpans, soundMeta, specSpans, SoundMeta.truncated, toUint32,
      alignOffset_eq_specRoundUp4, preAlignOffset]
  · intro h
    simp only [headerSpans, soundMeta, specSpans, toUint32,
      alignOffset_eq_specRoundUp4, preAlignOffset]
    rw [Nat.mod_eq_of_lt (by omega), Nat.mod_eq_of_lt (by omega), Nat.mod_eq_of_lt (by omega),
      Nat.mod_eq_of_lt h]

theorem headerSpans_eq_specSpans_witness :
    preAlignOffset 0x1000 (9 + 1) = 5802 ∧ alignOffset 5802 = 5804 ∧
      specRoundUp4 (0x06A0 + 0x1000 + (9 + 1)) + 32 + 100 + 50 + 0 < 2 ^ 32 ∧
      specSpans 0x1000 9 100 50 0 200 =
        { BGM := { Offset := 5804 + 32, Length := 100 }
          SoundEffect1 := { Offset := 5804 + 132, Length := 50 }
          SoundEffect2 := { Offset := 5804 + 182, Length := 0 }
          SoundEffect3 := { Offset := 5804 + 182, Length := 200 } } ∧
      headerSpans 0x1000 9 100 50 0 200 = specSpans 0x1000 9 100 50 0 200 :=
  ⟨by decide, by decide, by decide, by decide,
    (headerSpans_eq_specSpans_mod 0x1000 9 100 50 0 200).2.2 (by decide)⟩

/-! ## Magic check -/

theorem readAt_magic (data : List Nat) (pos : Nat)
    (h : ppmMagic = OsFile.ReadAt { data := data, pos := pos } (makeBytes 4) 0) :
    data.take 4 = ppmMagic := by
  rcases data with _ | ⟨a, _ | ⟨b, _ | ⟨c, _ | ⟨d, rest⟩⟩⟩⟩ <;>
    simp_all [OsFile.ReadAt, OsFile.available, makeBytes, ppmMagic]
  omega

/-- C5: a file whose first 4 bytes are not exactly `"PARA"`, a file shorter
than 4 bytes included, ends the decode path at the magic check: the only file
access made is the 4-byte read at offset 0, so no animation size, frame count,
audio size or track length is read, and no span is produced. -/
theorem decodeHeader_rejects_bad_magic (data : List Nat) (pos : Nat)
    (h : data.take 4 ≠ ppmMagic) :
    decodeHeader { data := data, pos := pos } =
      { accesses := [FileAccess.ReadAt 4 0x0], result := HeaderResult.magicIncorrect } := by
  have hne : ppmMagic ≠ OsFile.ReadAt { data := data, pos := pos } (makeBytes 4) 0 :=
    fun e => h (readAt_magic data pos e)
  unfold decodeHeader
  simp only [hne, ne_eq, not_false_eq_true, if_true]

/-- With the magic in place the parse goes on: on a 14-byte file holding
`"PARA"` and zero fields, all nine file accesses are made and the spans start
at `0x06A0 + 0 + 1` aligned to 1700, plus 32. -/
theorem decodeHeader_accepts_magic_example :
    decodeHeader { data := [0x50, 0x41, 0x52, 0x41, 0, 0, 0, 0, 0, 0, 0, 0, 0, 0], pos := 0 } =
      { accesses :=
          [FileAccess.ReadAt 4 0x0, FileAccess.ReadAt 4 0x4, FileAccess.ReadAt 2 0xC,
            FileAccess.ReadAt 4 0x8, FileAccess.Seek 1700, FileAccess.Read 4,
            FileAccess.Read 4, FileAccess.Read 4, FileAccess.Read 4]
        result := HeaderResult.parsed
          { SoundMeta :=
              { BGM := { Offset := 1732, Length := 0 }
                SoundEffect1 := { Offset := 1732, Length := 0 }
                SoundEffect2 := { Offset := 1732, Length := 0 }
                SoundEffect3 := { Offset := 1732, Length := 0 } }
            Size := 0 } } := by
  decide

theorem decodeHeader_rejects_bad_magic_witness :
    List.take 4 [0x50, 0x41, 0x52] ≠ ppmMagic ∧
      decodeHeader { data := [0x50, 0x41, 0x52], pos := 0 } =
        { accesses := [FileAccess.ReadAt 4 0x0], result := HeaderResult.magicIncorrect } :=
  ⟨by decide, decodeHeader_rejects_bad_magic [0x50, 0x41, 0x52] 0 (by decide)⟩

/-! ## Track extraction -/

theorem available_length_le (f : OsFile) (off len : Nat) : (f.available off len).length ≤ len := by
  simp only [OsFile.available, List.length_take]
  omega

theorem decodeBuffer_eq (f : OsFile) (off len : Nat) :
    decodeBuffer f off len =
      (f.available off (min len maxRW)).map swap ++
        List.replicate (len - (f.available off (min len maxRW)).length) 0 := by
  have hle := available_length_le f off (min len maxRW)
  have hbuf : ((f.Seek off).Read (makeBytes len)).2 =
      f.available off (min len maxRW) ++
        List.replicate (len - (f.available off (min len maxRW)).length) 0 := by
    simp [OsFile.Read, OsFile.readCount, OsFile.readBytes, OsFile.Seek, OsFile.available,
      makeBytes]
  have hlen : (f.available off (min len maxRW) ++
      List.replicate (len - (f.available off (min len maxRW)).length) 0).length = len := by
    simp only [List.length_append, List.length_replicate]
    omega
  unfold decodeBuffer
  simp only [hbuf]
  have h := swapLoop_eq_map
    (f.available off (min len maxRW) ++
      List.replicate (len - (f.available off (min len maxRW)).length) 0)
  rw [hlen] at h
  rw [h, List.map_append, List.map_replicate, swap_zero]

theorem decodeBuffer_length (f : OsFile) (off len : Nat) :
    (decodeBuffer f off len).length = len := by
  have hle := available_length_le f off (min len maxRW)
  rw [decodeBuffer_eq]
  simp only [List.length_append, List.length_map, List.length_replicate]
  omega

/-- C6, as stated, fails: on the one-byte source `[0x12]` the span at offset 0
of length 2 extends past the end and the read obtains 1 byte, yet `decodeAudio`
reports no error and returns what the decoder makes of the 2-byte buffer
`[0x21, 0x00]`. -/
theorem decodeAudio_short_read_returns :
    (0 + 2 > ([0x12] : List Nat).length) ∧
      (OsFile.Seek { data := [0x12], pos := 0 } 0).readCount (makeBytes 2) = 1 ∧
      decodeBuffer { data := [0x12], pos := 0 } 0 2 = [0x21, 0x00] ∧
      (∀ decode : List Nat → List Int,
        decodeAudio decode { data := [0x12], pos := 0 } 0 2 = decode [0x21, 0x00]) := by
  refine ⟨by decide, by decide, by decide, ?_⟩
  intro decode
  have h : decodeBuffer { data := [0x12], pos := 0 } 0 2 = [0x21, 0x00] := by decide
  simp only [decodeAudio, h]

/-- C6, amended: `decodeAudio` has no failure result and does not detect short
reads.  For every byte source and every span it returns the decoder's output on
a buffer of exactly `span.length` bytes: the nibble-swapped bytes that its one
`Read` call obtains, which are the bytes the source holds from `span.offset`
on, at most `span.length` and at most `2 ^ 30` of them, followed by zero bytes
for the rest of the buffer. -/
theorem decodeAudio_ignores_short_read (decode : List Nat → List Int) (f : OsFile)
    (off len : Nat) :
    (decodeBuffer f off len).length = len ∧
      decodeAudio decode f off len =
        decode (((f.data.drop off).take (min len (2 ^ 30))).map swap ++
          List.replicate (len - ((f.data.drop off).take (min len (2 ^ 30))).length) 0) := by
  refine ⟨decodeBuffer_length f off len, ?_⟩
  simp only [decodeAudio, decodeBuffer_eq, OsFile.available, maxRW]

/-! ## Decode output length -/

theorem adpcmDecodeCodes_length (update : AdpcmState → Nat → AdpcmState) (codes : List Nat)
    (st : AdpcmState) : (adpcmDecodeCodes update st codes).length = codes.length := by
  induction codes generalizing st with
  | nil => simp [adpcmDecodeCodes]
  | cons c cs ih => simp [adpcmDecodeCodes, ih]

theorem flatMap_byteCodes_length (input : List Nat) :
    (input.flatMap byteCodes).length = 2 * input.length := by
  induction input with
  | nil => simp
  | cons b bs ih =>
    simp only [List.flatMap_cons, List.length_append, ih, byteCodes, List.length_cons,
      List.length_nil]
    omega

/-- C8: for every track span of `N` bytes read in full, `decodeAudio` returns
exactly `2 * N` samples, one per 4-bit code of the `N` de-swapped bytes handed
to the single-channel decoder.  The buffer always has `N` bytes, so the count
holds for every span, read in full or not. -/
theorem decodeAudio_length (update : AdpcmState → Nat → AdpcmState) (init : AdpcmState)
    (f : OsFile) (off N : Nat) :
    (decodeAudio (adpcmDecode update init) f off N).length = 2 * N := by
  simp only [decodeAudio, adpcmDecode, adpcmDecodeCodes_length, flatMap_byteCodes_length,
    decodeBuffer_length]

/-! ## Swap and de-swap cancel -/

theorem map_swap_swap (l : List Nat) (h : ∀ b ∈ l, b < 256) : (l.map swap).map swap = l := by
  induction l with
  | nil => rfl
  | cons x xs ih =>
    have hx := swap_involutive_on_bytes x (h x (List.mem_cons_self x xs))
    have hxs := ih (fun b hb => h b (List.mem_cons_of_mem x hb))
    simp only [List.map_cons, hx, hxs]

theorem take_min_length (l : List Nat) (k : Nat) : l.take (min l.length k) = l.take k := by
  by_cases h : k ≤ l.length
  · rw [Nat.min_eq_right h]
  · have hk : l.length ≤ k := by omega
    rw [Nat.min_eq_left hk, List.take_of_length_le (Nat.le_refl _), List.take_of_length_le hk]

theorem encodeAudio_eq_map (encode : List Int → List Nat) (s : List Int) :
    encodeAudio encode s = (encode s).map swap := by
  simp only [encodeAudio, swapLoop_eq_map]

theorem decodeBuffer_of_encodeAudio (encode : List Int → List Nat) (s : List Int)
    (before after : List Nat) (pos : Nat) (hbytes : ∀ b ∈ encode s, b < 256) :
    decodeBuffer { data := before ++ encodeAudio encode s ++ after, pos := pos }
        before.length (encodeAudio encode s).length =
      (encode s).take maxRW ++ List.replicate ((encode s).length - maxRW) 0 := by
  have henc := encodeAudio_eq_map encode s
  have hav : OsFile.available { data := before ++ encodeAudio encode s ++ after, pos := pos }
      before.length (min (encodeAudio encode s).length maxRW) =
        (encodeAudio encode s).take maxRW := by
    simp only [OsFile.available, List.append_assoc, List.drop_left]
    rw [List.take_append_of_le_length (Nat.min_le_left _ _), take_min_length]
  have htake : ∀ b ∈ (encode s).take maxRW, b < 256 :=
    fun b hb => hbytes b (List.mem_of_mem_take hb)
  rw [decodeBuffer_eq, hav, henc, ← List.map_take, map_swap_swap _ htake]
  simp only [List.length_map, List.length_take]
  have hsub : (encode s).length - min maxRW (encode s).length = (encode s).length - maxRW := by
    omega
  rw [hsub]

theorem decodeBuffer_replicate_past_maxRW (encode : List Int → List Nat) (s : List Int)
    (n v : Nat) (henc : encode s = List.replicate n v) (hv : v < 256) (hv0 : v ≠ 0)
    (hn : maxRW < n) :
    (∀ b ∈ encode s, b < 256) ∧
      (encodeAudio encode s).length = n ∧
      (OsFile.Seek { data := encodeAudio encode s, pos := 0 } 0).readCount (makeBytes n)
        = maxRW ∧
      decodeBuffer { data := encodeAudio encode s, pos := 0 } 0 (encodeAudio encode s).length ≠
        List.replicate n v := by
  have hbytes : ∀ b ∈ encode s, b < 256 := by
    intro b hb
    rw [henc] at hb
    have hbv : b = v := List.eq_of_mem_replicate hb
    omega
  have hlen : (encodeAudio encode s).length = n := by
    rw [encodeAudio_eq_map, List.length_map, henc, List.length_replicate]
  have hbuf := decodeBuffer_of_encodeAudio encode s [] [] 0 hbytes
  simp only [List.nil_append, List.append_nil, List.length_nil] at hbuf
  rw [henc, List.length_replicate] at hbuf
  refine ⟨hbytes, hlen, ?_, ?_⟩
  · simp only [OsFile.readCount, OsFile.readBytes, OsFile.Seek, OsFile.available, makeBytes,
      List.length_replicate, List.drop_zero, List.length_take, hlen]
    omega
  · rw [hbuf]
    intro heq
    have hmem : (0 : Nat) ∈ List.take maxRW (List.replicate n v) ++
        List.replicate (n - maxRW) 0 := by
      apply List.mem_append_right
      rw [List.mem_replicate]
      exact ⟨by omega, rfl⟩
    rw [heq] at hmem
    exact hv0 (List.eq_of_mem_replicate hmem).symm

theorem encode_half_length (k : Nat) (v : Nat) (x : Int) :
    (fun a : List Int => List.replicate ((a.length + 1) / 2) v) (List.replicate (2 * k + 2) x) =
      List.replicate (k + 1) v := by
  have h : (2 * k + 2 + 1) / 2 = k + 1 := by omega
  simp only [List.length_replicate, h]

/-- C10, as stated, fails for encoder outputs longer than one `Read` call
obtains: for `2 ^ 31 + 2` samples and an encoder that returns one byte `0x12`
per two samples, the encoder output has `2 ^ 30 + 1` bytes, the read of the
span holding `encodeAudio s` obtains `2 ^ 30` of them, the last byte of the
buffer stays zero, and the buffer handed to the decoder is not the encoder
output. -/
theorem encodeAudio_roundtrip_fails_past_maxRW :
    (∀ b ∈ (fun a : List Int => List.replicate ((a.length + 1) / 2) 0x12)
        (List.replicate (2 * 2 ^ 30 + 2) 0), b < 256) ∧
      (encodeAudio (fun a : List Int => List.replicate ((a.length + 1) / 2) 0x12)
        (List.replicate (2 * 2 ^ 30 + 2) 0)).length = 2 ^ 30 + 1 ∧
      (OsFile.Seek
        { data := encodeAudio (fun a : List Int => List.replicate ((a.length + 1) / 2) 0x12)
            (List.replicate (2 * 2 ^ 30 + 2) 0),
          pos := 0 } 0).readCount (makeBytes (2 ^ 30 + 1)) = 2 ^ 30 ∧
      decodeBuffer
        { data := encodeAudio (fun a : List Int => List.replicate ((a.length + 1) / 2) 0x12)
            (List.replicate (2 * 2 ^ 30 + 2) 0),
          pos := 0 }
        0 (encodeAudio (fun a : List Int => List.replicate ((a.length + 1) / 2) 0x12)
            (List.replicate (2 * 2 ^ 30 + 2) 0)).length ≠
          List.replicate (2 ^ 30 + 1) 0x12 :=
  decodeBuffer_replicate_past_maxRW
    (fun a : List Int => List.replicate ((a.length + 1) / 2) 0x12)
    (List.replicate (2 * 2 ^ 30 + 2) 0) (2 ^ 30 + 1) 0x12 (encode_half_length (2 ^ 30) 0x12 0)
    (by decide) (by decide) (Nat.lt_succ_self (2 ^ 30))

/-- C10, amended: whatever the codec does, for every sample sequence `s`,
`encodeAudio s` has the length of the raw encoder output, and the buffer that
`decodeAudio` hands to the decoder for a span holding `encodeAudio s` is the
first `2 ^ 30` bytes of the raw encoder output followed by zero bytes for the
rest.  So whenever the encoder output has at most `2 ^ 30` bytes, the most one
`Read` call obtains, that buffer is byte for byte the raw encoder output and
decoding the track equals the library's `Decode (Encode s)`. -/
theorem decode_of_encodeAudio (encode : List Int → List Nat) (decode : List Nat → List Int)
    (s : List Int) (before after : List Nat) (pos : Nat) (hbytes : ∀ b ∈ encode s, b < 256) :
    (encodeAudio encode s).length = (encode s).length ∧
      decodeBuffer { data := before ++ encodeAudio encode s ++ after, pos := pos }
          before.length (encodeAudio encode s).length =
        (encode s).take (2 ^ 30) ++ List.replicate ((encode s).length - 2 ^ 30) 0 ∧
      ((encode s).length ≤ 2 ^ 30 →
        decodeBuffer { data := before ++ encodeAudio encode s ++ after, pos := pos }
            before.length (encodeAudio encode s).length = encode s ∧
          decodeAudio decode { data := before ++ encodeAudio encode s ++ after, pos := pos }
            before.length (encodeAudio encode s).length = decode (encode s)) := by
  have hmax : maxRW = 2 ^ 30 := rfl
  have hbuf := decodeBuffer_of_encodeAudio encode s before after pos hbytes
  rw [hmax] at hbuf
  refine ⟨by rw [encodeAudio_eq_map, List.length_map], hbuf, ?_⟩
  intro hle
  have hfull : decodeBuffer { data := before ++ encodeAudio encode s ++ after, pos := pos }
      before.length (encodeAudio encode s).length = encode s := by
    rw [hbuf, List.take_of_length_le hle, Nat.sub_eq_zero_of_le hle, List.replicate_zero,
      List.append_nil]
  exact ⟨hfull, by simp only [decodeAudio, hfull]⟩

theorem decode_of_encodeAudio_witness :
    (∀ b ∈ (fun _ : List Int => [0x12, 0xAB]) [1, -2, 3], b < 256) ∧
      ((fun _ : List Int => [0x12, 0xAB]) [1, -2, 3]).length ≤ 2 ^ 30 ∧
      decodeBuffer
        { data := [9] ++ encodeAudio (fun _ : List Int => [0x12, 0xAB]) [1, -2, 3] ++ [7],
          pos := 0 }
        ([9] : List Nat).length
        (encodeAudio (fun _ : List Int => [0x12, 0xAB]) [1, -2, 3]).length = [0x12, 0xAB] :=
  ⟨by decide, by decide,
    ((decode_of_encodeAudio (fun _ => [0x12, 0xAB]) (fun _ => []) [1, -2, 3] [9] [7] 0
      (by decide)).2.2 (by decide)).1⟩

/-! ## Command-line validation -/

/-- C7 fails on the code for encode mode without an output file: with
`-e audio.wav` and no `-d`, `-t`, `-o`, every parameter check is passed and
`main` reaches `os.Open("audio.wav")`. -/
theorem encode_without_output_reaches_open :
    checkParameters "audio.wav" "" "" "" = ParameterCheck.passed ∧
      firstFileCall "audio.wav" "" "" "" = some (FileCall.Open "audio.wav") := by
  decide

/-- Every other invalid combination named in the claim is rejected by a
parameter check before any file call. -/
theorem firstFileCall_none_of_invalid (e d t o : String)
    (h : (e ≠ "" ∧ d ≠ "") ∨ (t ≠ "" ∧ d = "") ∨
      (d ≠ "" ∧ t ≠ "bgm" ∧ t ≠ "se1" ∧ t ≠ "se2" ∧ t ≠ "se3") ∨
      (e = "" ∧ d = "") ∨ (e = "" ∧ o = "")) :
    checkParameters e d t o ≠ ParameterCheck.passed ∧ firstFileCall e d t o = none := by
  have hc : checkParameters e d t o ≠ ParameterCheck.passed := by
    unfold checkParameters
    by_cases he : e = "" <;> by_cases hd : d = "" <;> by_cases ht : t = "" <;>
      by_cases ho : o = "" <;> simp_all
  refine ⟨hc, ?_⟩
  unfold firstFileCall
  split
  · contradiction
  · rfl

/-! ## Audio size parse -/

theorem binaryReadLE_four (b0 b1 b2 b3 : Nat) :
    binaryReadLE [b0, b1, b2, b3] = [b3, b2, b1, b0] := by
  rfl

theorem hextable_digit (k : Nat) (hk : k < 16) :
    (hextable.getD k '0').toNat ≠ 0x5f ∧ (hextable.getD k '0') ≠ '_' ∧
      digitValue (hextable.getD k '0').toNat = some k := by
  interval_cases k <;> decide

theorem parseDigits_hextable (k n : Nat) (rest : List Char) (hk : k < 16) (hn : n < 2 ^ 56) :
    parseDigits 16 true n (hextable.getD k '0' :: rest) =
      parseDigits 16 true (n * 16 + k) rest := by
  obtain ⟨h1, _, h3⟩ := hextable_digit k hk
  rw [parseDigits]
  simp only [h1, false_and, if_false, h3]
  have c1 : ¬ (k ≥ 16) := by omega
  have c2 : ¬ (n ≥ (2 ^ 64 - 1) / 16 + 1) := by omega
  have c3 : ¬ (n * 16 + k > 2 ^ 64 - 1) := by omega
  simp only [c1, c2, c3, if_false]

theorem byte_nibbles (b : Nat) (hb : b < 256) :
    b >>> 4 < 16 ∧ b &&& 0x0f < 16 ∧ (b >>> 4) * 16 + (b &&& 0x0f) = b := by
  interval_cases b <;> decide

theorem parseUint0_hex (b0 b1 b2 b3 : Nat) (h0 : b0 < 256) (h1 : b1 < 256) (h2 : b2 < 256)
    (h3 : b3 < 256) :
    ParseUint0 ('0' :: 'x' :: hexEncodeToString [b3, b2, b1, b0]) =
      (b0 + 256 * b1 + 65536 * b2 + 16777216 * b3, none) := by
  obtain ⟨a0, c0, e0⟩ := byte_nibbles b0 h0
  obtain ⟨a1, c1, e1⟩ := byte_nibbles b1 h1
  obtain ⟨a2, c2, e2⟩ := byte_nibbles b2 h2
  obtain ⟨a3, c3, e3⟩ := byte_nibbles b3 h3
  have hx : lower ('x' : Char).toNat = 0x78 := by decide
  have hnb : ¬ (lower ('x' : Char).toNat = 0x62) := by decide
  have hno : ¬ (lower ('x' : Char).toNat = 0x6f) := by decide
  have hdig : parseDigits 16 true 0 (hexEncodeToString [b3, b2, b1, b0]) =
      (b0 + 256 * b1 + 65536 * b2 + 16777216 * b3, none) := by
    simp only [hexEncodeToString]
    rw [parseDigits_hextable _ _ _ a3 (by omega), parseDigits_hextable _ _ _ c3 (by omega),
      parseDigits_hextable _ _ _ a2 (by omega), parseDigits_hextable _ _ _ c2 (by omega),
      parseDigits_hextable _ _ _ a1 (by omega), parseDigits_hextable _ _ _ c1 (by omega),
      parseDigits_hextable _ _ _ a0 (by omega), parseDigits_hextable _ _ _ c0 (by omega),
      parseDigits]
    congr 1
    omega
  have hany : (hexEncodeToString [b3, b2, b1, b0]).any (fun ch => decide (ch = '_')) = false := by
    simp only [hexEncodeToString, List.any_cons, List.any_nil, Bool.or_false,
      (hextable_digit _ a0).2.1, (hextable_digit _ c0).2.1, (hextable_digit _ a1).2.1,
      (hextable_digit _ c1).2.1, (hextable_digit _ a2).2.1, (hextable_digit _ c2).2.1,
      (hextable_digit _ a3).2.1, (hextable_digit _ c3).2.1, decide_False, Bool.or_self]
  have hne : hexEncodeToString [b3, b2, b1, b0] ≠ [] := by
    simp [hexEncodeToString]
  have h98 : ¬ ((120 : Nat) = 98) := by decide
  have h111 : ¬ ((120 : Nat) = 111) := by decide
  simp only [ParseUint0, if_true, hne, ne_eq, not_false_eq_true, true_and, hnb, hno, hx,
    if_false, h98, h111, hdig, hany, Bool.false_eq_true, false_and]

/-- C9: for every 4-byte sequence `[b0, b1, b2, b3]` the audio-size parse
`hex2int (binaryReadLE [b0, b1, b2, b3])` (reverse the bytes, hex-encode,
prefix `"0x"`, parse as a 64-bit integer) returns
`b0 + 256 * b1 + 65536 * b2 + 16777216 * b3`, the value that
`binaryReadLE_uint32` returns for those bytes, and the parse reports no
error. -/
theorem hex2int_eq_little_endian (b0 b1 b2 b3 : Nat) (h0 : b0 < 256) (h1 : b1 < 256)
    (h2 : b2 < 256) (h3 : b3 < 256) :
    ParseInt0 ('0' :: 'x' :: hexEncodeToString (binaryReadLE [b0, b1, b2, b3])) =
        (((b0 + 256 * b1 + 65536 * b2 + 16777216 * b3 : Nat) : Int), none) ∧
      hex2int (binaryReadLE [b0, b1, b2, b3]) =
        ((b0 + 256 * b1 + 65536 * b2 + 16777216 * b3 : Nat) : Int) ∧
      hex2int (binaryReadLE [b0, b1, b2, b3]) = ((binaryReadLE_uint32 [b0, b1, b2, b3] : Nat) : Int) := by
  have hu := parseUint0_hex b0 b1 b2 b3 h0 h1 h2 h3
  have hp : ParseInt0 ('0' :: 'x' :: hexEncodeToString (binaryReadLE [b0, b1, b2, b3])) =
      (((b0 + 256 * b1 + 65536 * b2 + 16777216 * b3 : Nat) : Int), none) := by
    have hplus : ¬ (('0' : Char) = '+' ∨ ('0' : Char) = '-') := by decide
    have hminus : ¬ (('0' : Char) = '-') := by decide
    have hsmall : ¬ (b0 + 256 * b1 + 65536 * b2 + 16777216 * b3 ≥ 2 ^ 63) := by omega
    rw [binaryReadLE_four]
    have hplus1 : ¬ (('0' : Char) = '+' ∨ False) := by decide
    simp only [ParseInt0, hplus, hplus1, hminus, if_false, hu, decide_False, true_and, hsmall,
      Bool.false_eq_true, false_and]
  refine ⟨hp, ?_, ?_⟩
  · simp only [hex2int, hp]
  · simp only [hex2int, hp, binaryReadLE_uint32]

theorem hex2int_eq_little_endian_witness :
    ((0x78 : Nat) < 256 ∧ (0x56 : Nat) < 256 ∧ (0x34 : Nat) < 256 ∧ (0x12 : Nat) < 256) ∧
      hex2int (binaryReadLE [0x78, 0x56, 0x34, 0x12]) = ((0x12345678 : Nat) : Int) :=
  ⟨by decide,
    (hex2int_eq_little_endian 0x78 0x56 0x34 0x12 (by decide) (by decide) (by decide)
      (by decide)).2.1⟩

end PpmAudio
